import Mathlib

/-!
Verification of the elizaOS AgentRuntime core (packages/core/src/runtime.ts).

The TypeScript class AgentRuntime is shallowly embedded: JavaScript objects
are association lists of string keys and JSON-like values (insertion order
preserved, key update in place, as in JS), the per-message state cache is an
association list keyed by message id, and the class methods become pure
functions that thread the runtime record explicitly.  Handlers, providers
and model handlers are modelled as pure Lean functions of the arguments the
source passes them (the runtime argument, through which the source only
reaches external collaborators, is dropped); fallible handlers return
Except.  Logging and database writes are recorded as trace events.
-/

set_option maxRecDepth 4096

namespace Eliza

/-- A JSON-like JavaScript value, as stored in settings maps, provider
outputs and state snapshots. -/
inductive Val where
  | vNull : Val
  | vBool (b : Bool) : Val
  | vNum (n : Int) : Val
  | vStr (s : String) : Val
  | vArr (elems : List Val) : Val
  | vObj (fields : List (String × Val)) : Val

/-- A JavaScript object: ordered association list of fields.  JS objects keep
insertion order and updating an existing key keeps its position. -/
abbrev Obj := List (String × Val)

/-- JavaScript truthiness of a value (undefined is handled by Option at use
sites and is falsy). -/
def truthy : Val → Bool
  | Val.vNull => false
  | Val.vBool b => b
  | Val.vNum n => n != 0
  | Val.vStr s => s ≠ ""
  | Val.vArr _ => true
  | Val.vObj _ => true

/-- Lookup of a key in an ordered association list (JS property read; the
first binding wins, and well-formed JS objects have unique keys). -/
def lookupStr {β : Type} : List (String × β) → String → Option β
  | [], _ => none
  | e :: es, k => if e.1 = k then some e.2 else lookupStr es k

/-- Write of a key in an ordered association list: JS property write keeps
the position of an existing key and appends a missing one. -/
def setStr {β : Type} : List (String × β) → String → β → List (String × β)
  | [], k, v => [(k, v)]
  | e :: es, k, v => if e.1 = k then (k, v) :: es else e :: setStr es k v

/-- The keys of an association list, in order. -/
def keysStr {β : Type} (l : List (String × β)) : List String := l.map (·.1)

/-- JavaScript Object.assign(target, src) / object spread: each field of src
is written onto target in order. -/
def objAssign (target src : Obj) : Obj :=
  src.foldl (fun t kv => setStr t kv.1 kv.2) target

/-- The last value assigned to a key by a sequence of writes (used to
specify objAssign). -/
def lastAssign : List (String × Val) → String → Option Val
  | [], _ => none
  | e :: es, k =>
    match lastAssign es k with
    | some v => some v
    | none => if e.1 = k then some e.2 else none

/-- The flat write sequence performed by the merge loop of composeState:
the concatenation of the fields of every object-valued entry of the
combined per-provider map, in order. -/
def asgnOf : Obj → List (String × Val)
  | [] => []
  | e :: es =>
    (match e.2 with
      | Val.vObj o => o
      | _ => []) ++ asgnOf es

/-- JavaScript String.prototype.toLowerCase restricted to the ASCII range
(all names appearing in the claims are ASCII). -/
def jsToLower (s : String) : String := ⟨s.data.map Char.toLower⟩

/-- Helper for jsIncludes: one-step scan for an infix. -/
def jsIncludesList : List Char → List Char → Bool
  | [], sub => sub.isEmpty
  | c :: cs, sub => List.isPrefixOf sub (c :: cs) || jsIncludesList cs sub

/-- JavaScript String.prototype.includes: substring containment. -/
def jsIncludes (s sub : String) : Bool := jsIncludesList s.data sub.data

/-- Helper for normalizeAction: JS String.replace with a plain-string search
pattern replaces only the first occurrence of the pattern. -/
def removeFirstUnderscore : List Char → List Char
  | [] => []
  | c :: cs => if c = '_' then cs else c :: removeFirstUnderscore cs

/-- runtime.ts processActions, inner helper normalizeAction:
action.toLowerCase().replace(underscore, empty string).  The string form of
JS replace rewrites only the first occurrence. -/
def normalizeAction (action : String) : String :=
  ⟨removeFirstUnderscore (jsToLower action).data⟩

/-- Modelled from the spec: the spec sentence says both names are normalized
by lower-casing and stripping underscore characters, i.e. every underscore
is deleted.  Stated here only to be compared with normalizeAction, which is
translated from the code. -/
def stripAllUnderscoresSpec (s : String) : String :=
  ⟨(jsToLower s).data.filter (fun c => c ≠ '_')⟩

/-- Modelled from the spec (amended form of the C2 claim): lower-case the
string and delete the first underscore only, here phrased through takeWhile
and dropWhile rather than through the recursion of the code path. -/
def stripFirstUnderscoreSpec (s : String) : String :=
  ⟨(jsToLower s).data.takeWhile (fun c => c ≠ '_') ++
    ((jsToLower s).data.dropWhile (fun c => c ≠ '_')).drop 1⟩

/-- Message content (runtime.ts type Content): text, and the optional list
of action names a response requests. -/
structure Content where
  text : String
  actions : Option (List String)
deriving DecidableEq, Repr

/-- A memory (message or candidate response). -/
structure Memory where
  id : String
  entityId : String
  roomId : String
  content : Content
deriving DecidableEq, Repr

/-- A state snapshot as produced by composeState and held in stateCache:
values, data, and concatenated provider text. -/
structure CompState where
  values : Obj
  data : Obj
  text : String

/-- The empty snapshot used when message.id has no cache entry. -/
def emptyCompState : CompState := { values := [], data := [], text := "" }

/-- What a provider's get returns (runtime.ts type ProviderResult): a flat
values object and a text contribution. -/
structure ProviderResult where
  values : Obj
  text : String

/-- A registered context provider.  The field pid stands for JavaScript
object identity (Array.from(new Set(...)) deduplicates by identity):
distinct registered provider objects carry distinct pids.  The get operation
receives the runtime, the message and the cached state in the source; the
runtime argument only reaches external collaborators and is dropped here. -/
structure Provider where
  pid : Nat
  name : String
  position : Option Int
  isPrivate : Bool
  dynamic : Bool
  get : Memory → CompState → ProviderResult

/-- An action handler: receives the message, the freshly composed state and
the full responses batch (runtime, empty options bag and callback dropped),
and may throw. -/
abbrev ActionHandler := Memory → CompState → List Memory → Except String Unit

/-- A registered action (name, similes alias list, optional handler). -/
structure Action where
  name : String
  similes : Option (List String)
  handler : Option ActionHandler

/-- A registered evaluator.  Only its registration is covered by the claims,
so validation and handler are kept opaque. -/
structure Evaluator where
  name : String
  eid : Nat

/-- A service descriptor (the static side of runtime.ts class Service):
serviceType tag, and the start factory, modelled by the instance identifier
it produces; did stands for object identity of the descriptor. -/
structure ServiceDef where
  did : Nat
  serviceType : Option String
  start : Nat
deriving DecidableEq, Repr

/-- A model handler: params to result (the runtime argument is dropped). -/
abbrev ModelHandler := Val → Val

/-- A plugin manifest (runtime.ts type Plugin).  The init routine is
arbitrary external plugin code and is modelled by an opaque identifier whose
invocation is recorded in the trace. -/
structure Plugin where
  name : String
  adapter : Option Nat
  actions : Option (List Action)
  evaluators : Option (List Evaluator)
  providers : Option (List Provider)
  models : Option (List (String × ModelHandler))
  routes : Option (List Nat)
  events : Option (List (String × List Nat))
  services : Option (List ServiceDef)
  init : Option Nat

/-- The character configuration: secrets and settings maps (the nested
settings-secrets map lives under the settings key named secrets). -/
structure Character where
  secrets : Obj
  settings : Obj

/-- The runtime state of class AgentRuntime: the registries and the
per-message state cache.  envSettings is the process-wide settings module
imported by runtime.ts. -/
structure AgentRuntime where
  character : Character
  envSettings : Obj
  plugins : List Plugin
  adapter : Option Nat
  actions : List Action
  evaluators : List Evaluator
  providers : List Provider
  models : List (String × List ModelHandler)
  routes : List Nat
  events : List (String × List Nat)
  services : List (String × Nat)
  taskWorkers : List (String × Nat)
  stateCache : List (String × CompState)

/-- JavaScript a || b over possibly-undefined values: keep a when it is
present and truthy, otherwise fall through to b. -/
def jsOr (a b : Option Val) : Option Val :=
  match a with
  | some v => if truthy v then some v else b
  | none => b

/-- The tail of getSetting: the strings true and false are coerced to
booleans, any other falsy (or undefined) resolved value becomes null, and a
truthy value is returned as is. -/
def coerceSetting : Option Val → Val
  | some (Val.vStr "true") => Val.vBool true
  | some (Val.vStr "false") => Val.vBool false
  | some v => if truthy v then v else Val.vNull
  | none => Val.vNull

/-- The nested settings-secrets lookup:
character.settings?.secrets?.[key]. -/
def settingsSecretsLookup (rt : AgentRuntime) (key : String) : Option Val :=
  match lookupStr rt.character.settings "secrets" with
  | some (Val.vObj o) => lookupStr o key
  | _ => none

/-- runtime.ts getSetting: character.secrets[key] || character.settings[key]
|| character.settings.secrets[key] || settings[key], then the strings true
and false are coerced to booleans and any other falsy value becomes null. -/
def getSetting (rt : AgentRuntime) (key : String) : Val :=
  coerceSetting
    (jsOr (lookupStr rt.character.secrets key)
      (jsOr (lookupStr rt.character.settings key)
        (jsOr (settingsSecretsLookup rt key)
          (lookupStr rt.envSettings key))))

/-- Modelled from the spec: the claim reads getSetting as returning the
value held by the highest-priority source that contains the key (contains
meaning the key is present at all), with the same true/false coercion and
falsy-to-null normalization applied to that value.  Stated only to be
compared with getSetting, which is translated from the code. -/
def getSettingClaimSpec (rt : AgentRuntime) (key : String) : Val :=
  coerceSetting
    ((lookupStr rt.character.secrets key).orElse fun _ =>
      (lookupStr rt.character.settings key).orElse fun _ =>
        (settingsSecretsLookup rt key).orElse fun _ =>
          lookupStr rt.envSettings key)

/-- The first present-and-truthy value of a priority list of lookups. -/
def firstTruthy : List (Option Val) → Option Val
  | [] => none
  | a :: rest =>
    match a with
    | some v => if truthy v then some v else firstTruthy rest
    | none => firstTruthy rest

/-- Modelled from the spec (amended form of the C4 claim): the result is
the value of the highest-priority source holding a truthy value (sources
holding falsy values are skipped), with the strings true and false coerced
to booleans, and null when no source holds a truthy value.  Stated to be
compared with getSetting. -/
def getSettingAmendedSpec (rt : AgentRuntime) (key : String) : Val :=
  coerceSetting
    (firstTruthy
      [lookupStr rt.character.secrets key,
        lookupStr rt.character.settings key,
        settingsSecretsLookup rt key,
        lookupStr rt.envSettings key])

/-- The sort key of a provider: position || 0 (a missing position, like a
zero one, is falsy and yields 0). -/
def posOf (p : Provider) : Int := p.position.getD 0

/-- Helper for sortByPos: stable insertion.  The head-first recursion of
sortByPos inserts earlier elements last, so inserting before the first
element with a greater-or-equal key keeps the original relative order of
equal keys. -/
def insertByPos (p : Provider) : List Provider → List Provider
  | [] => [p]
  | q :: qs => if posOf p ≤ posOf q then p :: q :: qs else q :: insertByPos p qs

/-- The stable ascending sort by declared position that JS
Array.prototype.sort with comparator (a.position || 0) - (b.position || 0)
performs (Array.prototype.sort is stable). -/
def sortByPos : List Provider → List Provider
  | [] => []
  | p :: ps => insertByPos p (sortByPos ps)

/-- Helper for dedupById: drop later occurrences of already-seen pids. -/
def dedupByIdGo (seen : List Nat) : List Provider → List Provider
  | [] => []
  | p :: ps => if p.pid ∈ seen then dedupByIdGo seen ps else p :: dedupByIdGo (p.pid :: seen) ps

/-- Array.from(new Set(array)) over provider objects: keeps the first
occurrence of each object identity, in order. -/
def dedupById (l : List Provider) : List Provider := dedupByIdGo [] l

/-- The names of the providers already present in a cache entry:
cachedState.data.providers is an object when present (composeState only
ever stores an object there), and its keys are taken; otherwise the list is
empty. -/
def existingProviderNamesOf (cachedState : CompState) : List String :=
  match lookupStr cachedState.data "providers" with
  | some (Val.vObj o) => keysStr o
  | _ => []

/-- The per-provider data object already present in a cache entry
(cachedState.data.providers || empty object). -/
def existingProviderDataOf (cachedState : CompState) : Obj :=
  match lookupStr cachedState.data "providers" with
  | some (Val.vObj o) => o
  | _ => []

/-- The merge loop of composeState: for each entry of the combined
per-provider map, in key order, shallow-assign the provider's values object
(only entries that are objects are assigned) on top of the accumulator. -/
def mergeProviderValues (base : Obj) (combined : Obj) : Obj :=
  combined.foldl
    (fun acc e =>
      match e.2 with
      | Val.vObj o => objAssign acc o
      | _ => acc)
    base

/-- The result of one composeState call: the returned snapshot, the runtime
with its updated state cache, and the names of the providers whose get
operation was invoked, in invocation order. -/
structure ComposeResult where
  state : CompState
  runtime : AgentRuntime
  invoked : List String

/-- Provider selection in composeState: candidate names are the filterList
when non-empty, otherwise every registered provider that is neither private
nor dynamic nor already cached; names from a non-empty includeList are
always added; the matching provider objects are deduplicated by identity
and stably sorted by position. -/
def csSelect (providers : List Provider) (cachedState : CompState)
    (filterList includeList : Option (List String)) : List Provider :=
  let existingProviderNames := existingProviderNamesOf cachedState
  let defaultNames :=
    (providers.filter
      (fun p => !p.isPrivate && !p.dynamic && !(existingProviderNames.contains p.name))).map
      (·.name)
  let baseNames :=
    match filterList with
    | some fl => if fl.isEmpty then defaultNames else fl
    | none => defaultNames
  let providerNames :=
    match includeList with
    | some il => if il.isEmpty then baseNames else baseNames ++ il
    | none => baseNames
  sortByPos (dedupById (providers.filter (fun p => providerNames.contains p.name)))

/-- The provider fetch fan-out: every selected provider receives the cached
state (never the in-progress merge), and results are paired with the
provider name. -/
def csProviderData (message : Memory) (cachedState : CompState)
    (providersToGet : List Provider) : List (String × ProviderResult) :=
  providersToGet.map (fun p => (p.name, p.get message cachedState))

/-- The combined per-provider map: the cached per-provider data, overwritten
per name with freshly fetched values. -/
def csCombined (cachedState : CompState) (providerData : List (String × ProviderResult)) :
    Obj :=
  providerData.foldl (fun acc nr => setStr acc nr.1 (Val.vObj nr.2.values))
    (existingProviderDataOf cachedState)

/-- The concatenated provider text: the non-empty fetched texts joined by
newline, appended after the cached text when both are non-empty. -/
def csText (cachedState : CompState) (providerData : List (String × ProviderResult)) :
    String :=
  let newProvidersText :=
    String.intercalate "\n" ((providerData.map (fun nr => nr.2.text)).filter (fun t => t ≠ ""))
  if cachedState.text ≠ "" && newProvidersText ≠ "" then
    cachedState.text ++ "\n" ++ newProvidersText
  else if newProvidersText ≠ "" then newProvidersText
  else if cachedState.text ≠ "" then cachedState.text
  else ""

/-- Assembly of the new snapshot: the flat values map is the cached values
overlaid by every provider values object of the combined map in key order,
with the providers key set to the concatenated text; data keeps the cached
entries with providers replaced by the combined map. -/
def csSnapshot (cachedState : CompState) (providerData : List (String × ProviderResult)) :
    CompState :=
  let combinedValues := csCombined cachedState providerData
  let providersText := csText cachedState providerData
  let values := mergeProviderValues cachedState.values combinedValues
  { values := setStr values "providers" (Val.vStr providersText)
    data := setStr cachedState.data "providers" (Val.vObj combinedValues)
    text := providersText }

/-- runtime.ts composeState(message, filterList, includeList): read the
cache entry for message.id (empty snapshot when absent), select the
providers to fetch, fetch them all against the cached state, assemble the
merged snapshot, store it back under message.id and return it. -/
def composeState (rt : AgentRuntime) (message : Memory)
    (filterList : Option (List String)) (includeList : Option (List String)) :
    ComposeResult :=
  let cachedState := (lookupStr rt.stateCache message.id).getD emptyCompState
  let providersToGet := csSelect rt.providers cachedState filterList includeList
  let providerData := csProviderData message cachedState providersToGet
  let newState := csSnapshot cachedState providerData
  { state := newState
    runtime := { rt with stateCache := setStr rt.stateCache message.id newState }
    invoked := providersToGet.map (·.name) }

/-- The name-resolution predicate of processActions: substring containment
in either direction between the normalized requested name and the
normalized registered name. -/
def nameMatches (normalizedResponseAction : String) (a : Action) : Bool :=
  jsIncludes (normalizeAction a.name) normalizedResponseAction ||
    jsIncludes normalizedResponseAction (normalizeAction a.name)

/-- The simile fallback predicate: the same normalization and two-way
containment applied to each simile of the action. -/
def simileMatches (normalizedResponseAction : String) (a : Action) : Bool :=
  (a.similes.getD []).any
    (fun simile =>
      jsIncludes ⟨removeFirstUnderscore (jsToLower simile).data⟩ normalizedResponseAction ||
        jsIncludes normalizedResponseAction ⟨removeFirstUnderscore (jsToLower simile).data⟩)

/-- Action resolution in processActions: first match by name in
registration order, then first match through the similes scan. -/
def resolveAction (actions : List Action) (responseAction : String) : Option Action :=
  let normalizedResponseAction := normalizeAction responseAction
  match actions.find? (nameMatches normalizedResponseAction) with
  | some a => some a
  | none => actions.find? (simileMatches normalizedResponseAction)

/-- Observable events of one processActions call: the warning for a
response without actions, the two per-name error recordings, the handler
invocation with its state argument, and the database audit entry written
after a successful handler. -/
inductive PAEvent where
  | warnNoActions : PAEvent
  | errNoAction (requested : String) : PAEvent
  | errNoHandler (actionName : String) : PAEvent
  | handlerCall (actionName : String) (st : CompState) : PAEvent
  | dbAction (actionName : String) (messageText : String) (messageId : String)
      (st : CompState) (responses : List Memory) : PAEvent

/-- The inner loop of processActions over one response's requested action
names.  The state variable of the source is carried as an accumulator: it
is reassigned from composeState at the top of every iteration, before any
use.  A handler throw stops the recursion and is returned as the error
component. -/
def paNames (rt : AgentRuntime) (message : Memory) (responses : List Memory)
    (state : Option CompState) :
    List String → AgentRuntime × List PAEvent × Option String × Option CompState
  | [] => (rt, [], none, state)
  | nm :: more =>
    let cr := composeState rt message (some ["RECENT_MESSAGES"]) none
    match resolveAction cr.runtime.actions nm with
    | none =>
      let rest := paNames cr.runtime message responses (some cr.state) more
      (rest.1, PAEvent.errNoAction nm :: rest.2.1, rest.2.2.1, rest.2.2.2)
    | some a =>
      match a.handler with
      | none =>
        let rest := paNames cr.runtime message responses (some cr.state) more
        (rest.1, PAEvent.errNoHandler a.name :: rest.2.1, rest.2.2.1, rest.2.2.2)
      | some h =>
        match h message cr.state responses with
        | Except.error e =>
          (cr.runtime, [PAEvent.handlerCall a.name cr.state], some e, some cr.state)
        | Except.ok _ =>
          let rest := paNames cr.runtime message responses (some cr.state) more
          (rest.1,
            PAEvent.handlerCall a.name cr.state ::
              PAEvent.dbAction a.name message.content.text message.id cr.state responses ::
                rest.2.1,
            rest.2.2.1, rest.2.2.2)

/-- The outer loop of processActions over the responses batch: a response
without actions is skipped with a warning; an error escaping the inner loop
aborts the remaining responses. -/
def paResponses (rt : AgentRuntime) (message : Memory) (responsesAll : List Memory)
    (state : Option CompState) :
    List Memory → AgentRuntime × List PAEvent × Option String
  | [] => (rt, [], none)
  | r :: rest =>
    match r.content.actions with
    | none =>
      let res := paResponses rt message responsesAll state rest
      (res.1, PAEvent.warnNoActions :: res.2.1, res.2.2)
    | some names =>
      if names.isEmpty then
        let res := paResponses rt message responsesAll state rest
        (res.1, PAEvent.warnNoActions :: res.2.1, res.2.2)
      else
        let inner := paNames rt message responsesAll state names
        match inner.2.2.1 with
        | some e => (inner.1, inner.2.1, some e)
        | none =>
          let res := paResponses inner.1 message responsesAll inner.2.2.2 rest
          (res.1, inner.2.1 ++ res.2.1, res.2.2)

/-- runtime.ts processActions(message, responses, state, callback): the
callback is only forwarded to handlers and is dropped from the model. -/
def processActions (rt : AgentRuntime) (message : Memory) (responses : List Memory)
    (state : Option CompState) : AgentRuntime × List PAEvent × Option String :=
  paResponses rt message responses state responses

/-- Registration-time events recorded by the service registry, the adapter
binding and plugin installation. -/
inductive REvent where
  | svcStarted (did : Nat) : REvent
  | svcWarnDuplicate (serviceType : String) : REvent
  | adapterWarnDuplicate : REvent
  | pluginInit (pluginName : String) (initId : Nat) : REvent
deriving DecidableEq, Repr

/-- runtime.ts registerService: a descriptor without a service-type tag (or
with the empty, falsy one) is a no-op; an already-registered type is
skipped with a warning before the start factory runs; otherwise the factory
runs and its instance is stored under the type. -/
def registerService (rt : AgentRuntime) (sd : ServiceDef) : AgentRuntime × List REvent :=
  match sd.serviceType with
  | none => (rt, [])
  | some serviceType =>
    if serviceType = "" then (rt, [])
    else if (lookupStr rt.services serviceType).isSome then
      (rt, [REvent.svcWarnDuplicate serviceType])
    else
      ({ rt with services := setStr rt.services serviceType sd.start },
        [REvent.svcStarted sd.did])

/-- Sequential registration of a list of service descriptors. -/
def registerServices (rt : AgentRuntime) (ds : List ServiceDef) : AgentRuntime × List REvent :=
  ds.foldl
    (fun acc sd =>
      let r := registerService acc.1 sd
      (r.1, acc.2 ++ r.2))
    (rt, [])

/-- runtime.ts registerModel: create the list for the key when absent, then
push the handler at the end (never replacing earlier handlers). -/
def registerModel (rt : AgentRuntime) (modelType : String) (handler : ModelHandler) :
    AgentRuntime :=
  let models := if (lookupStr rt.models modelType).isSome then rt.models
    else setStr rt.models modelType []
  { rt with models := setStr models modelType ((lookupStr models modelType).getD [] ++ [handler]) }

/-- runtime.ts getModel: undefined when no handler list exists or it is
empty, otherwise the first-registered handler. -/
def getModel (rt : AgentRuntime) (modelType : String) : Option ModelHandler :=
  match lookupStr rt.models modelType with
  | none => none
  | some [] => none
  | some (h :: _) => some h

/-- Whether a response is a homogeneous numeric array, which the audit log
replaces with an opaque placeholder. -/
def isNumericArray : Val → Bool
  | Val.vArr elems => elems.all (fun x => match x with | Val.vNum _ => true | _ => false)
  | _ => false

/-- JavaScript Object.keys as applied to the params value of useModel. -/
def jsObjectKeys : Val → List String
  | Val.vObj o => keysStr o
  | Val.vArr elems => (List.range elems.length).map toString
  | _ => []

/-- The body of the audit entry useModel writes: the parameter key names
only, and the response with the numeric-array placeholder applied. -/
structure UseModelLog where
  typeTag : String
  paramsKeys : List String
  responseLogged : Val

/-- The audit entry for one useModel invocation. -/
def useModelLogBody (modelType : String) (params response : Val) : UseModelLog :=
  { typeTag := "useModel:" ++ modelType
    paramsKeys := if truthy params then jsObjectKeys params else []
    responseLogged := if isNumericArray response then Val.vStr "[array]" else response }

/-- runtime.ts useModel: throws a NotFound error carrying the model-type
key when no handler resolves, otherwise calls the first-registered handler,
writes the audit entry, and returns the raw response. -/
def useModel (rt : AgentRuntime) (modelType : String) (params : Val) :
    Except String (Val × UseModelLog) :=
  match getModel rt modelType with
  | none => Except.error ("No handler found for delegate type: " ++ modelType)
  | some model =>
    let response := model params
    Except.ok (response, useModelLogBody modelType params response)

/-- runtime.ts registerDatabaseAdapter: first registration wins; a later
one is dropped with a warning. -/
def registerDatabaseAdapter (rt : AgentRuntime) (adapter : Nat) : AgentRuntime × List REvent :=
  match rt.adapter with
  | some _ => (rt, [REvent.adapterWarnDuplicate])
  | none => ({ rt with adapter := some adapter }, [])

/-- runtime.ts registerEvent: append the handler to the list for the name,
creating the list when absent. -/
def registerEvent (rt : AgentRuntime) (event : String) (handler : Nat) : AgentRuntime :=
  let events := if (lookupStr rt.events event).isSome then rt.events
    else setStr rt.events event []
  { rt with events := setStr events event ((lookupStr events event).getD [] ++ [handler]) }

/-- runtime.ts registerPlugin: a null or undefined plugin returns
immediately; otherwise the plugin is pushed when its name is new, and its
adapter, actions, evaluators, providers, models, routes, events and
services are registered in that order, with the init routine invoked last
(init is external plugin code; its invocation is recorded as an event). -/
def registerPlugin (rt : AgentRuntime) (plugin : Option Plugin) : AgentRuntime × List REvent :=
  match plugin with
  | none => (rt, [])
  | some p =>
    let rt := if rt.plugins.any (fun q => q.name = p.name) then rt
      else { rt with plugins := rt.plugins ++ [p] }
    let adapterStep :=
      match p.adapter with
      | some a => registerDatabaseAdapter rt a
      | none => (rt, [])
    let rt := adapterStep.1
    let rt := { rt with actions := rt.actions ++ p.actions.getD [] }
    let rt := { rt with evaluators := rt.evaluators ++ p.evaluators.getD [] }
    let rt := { rt with providers := rt.providers ++ p.providers.getD [] }
    let rt := (p.models.getD []).foldl (fun r kh => registerModel r kh.1 kh.2) rt
    let rt := { rt with routes := rt.routes ++ p.routes.getD [] }
    let rt :=
      (p.events.getD []).foldl
        (fun r eh => eh.2.foldl (fun r' handler => registerEvent r' eh.1 handler) r) rt
    let servicesStep := registerServices rt (p.services.getD [])
    let rt := servicesStep.1
    let initEvents :=
      match p.init with
      | some i => [REvent.pluginInit p.name i]
      | none => []
    (rt, adapterStep.2 ++ servicesStep.2 ++ initEvents)

/-- A runtime with every registry empty, used as the base of the concrete
witness instances below. -/
def baseRuntime : AgentRuntime :=
  { character := { secrets := [], settings := [] }
    envSettings := []
    plugins := []
    adapter := none
    actions := []
    evaluators := []
    providers := []
    models := []
    routes := []
    events := []
    services := []
    taskWorkers := []
    stateCache := [] }

/-- Witness provider P1 of the spec's end-to-end example: position 0, text
ctx1. -/
def exProviderP1 : Provider :=
  { pid := 0, name := "P1", position := some 0, isPrivate := false, dynamic := false
    get := fun _ _ => { values := [("p1key", Val.vStr "p1val")], text := "ctx1" } }

/-- Witness provider P2 of the spec's end-to-end example: position 5, text
ctx2. -/
def exProviderP2 : Provider :=
  { pid := 1, name := "P2", position := some 5, isPrivate := false, dynamic := false
    get := fun _ _ => { values := [("p2key", Val.vStr "p2val")], text := "ctx2" } }

/-- Witness runtime with P2 registered before P1, so the position sort is
exercised. -/
def exProviderRuntime : AgentRuntime :=
  { baseRuntime with providers := [exProviderP2, exProviderP1] }

/-- A private provider sharing the name P1 with the public one: selection
in composeState is by name, so it is fetched alongside the public P1. -/
def exProviderP1Private : Provider :=
  { pid := 2, name := "P1", position := some 1, isPrivate := true, dynamic := false
    get := fun _ _ => { values := [], text := "secret" } }

/-- A runtime whose provider list holds a private provider with a name
duplicating a public one (providers are appended with no de-duplication, so
this runtime is reachable). -/
def exDupNameRuntime : AgentRuntime :=
  { baseRuntime with providers := [exProviderP2, exProviderP1, exProviderP1Private] }

/-- Witness message. -/
def exMessage : Memory :=
  { id := "11111111-1111-1111-1111-111111111111", entityId := "e1", roomId := "r1"
    content := { text := "hello", actions := none } }

/-- Witness runtime for the getSetting claim: the secrets map holds the key
with an empty (falsy) string while the settings map holds a non-empty
value. -/
def exSettingRuntime : AgentRuntime :=
  { baseRuntime with
    character :=
      { secrets := [("SAMPLE_KEY", Val.vStr "")]
        settings := [("SAMPLE_KEY", Val.vStr "x")] } }

/-- Witness action without a handler. -/
def exActionNoHandler : Action :=
  { name := "NOHAND", similes := none, handler := none }

/-- Witness action whose handler always throws. -/
def exActionFailing : Action :=
  { name := "FAIL", similes := none
    handler := some (fun _ _ _ => Except.error "boom") }

/-- Witness runtime holding the two actions above. -/
def exActionRuntime : AgentRuntime :=
  { baseRuntime with actions := [exActionNoHandler, exActionFailing] }

/-- Witness response requesting an unresolvable name, the handler-less
action and the failing action, in that order. -/
def exResponse : Memory :=
  { id := "22222222-2222-2222-2222-222222222222", entityId := "e1", roomId := "r1"
    content := { text := "reply", actions := some ["zzz", "NOHAND", "FAIL"] } }

/-- A second response that must never be processed in the fail-fast
witness. -/
def exResponseLater : Memory :=
  { id := "33333333-3333-3333-3333-333333333333", entityId := "e1", roomId := "r1"
    content := { text := "later", actions := some ["NOHAND"] } }

/-- Witness service descriptors: two with the same type, one without a
type. -/
def exServiceA : ServiceDef := { did := 10, serviceType := some "twitter", start := 100 }

/-- Witness duplicate-type service descriptor. -/
def exServiceB : ServiceDef := { did := 11, serviceType := some "twitter", start := 101 }

/-- Witness untagged service descriptor. -/
def exServiceUntagged : ServiceDef := { did := 12, serviceType := none, start := 102 }

/-- Witness model handlers. -/
def exHandlerOne : ModelHandler := fun _ => Val.vNum 1

/-- Witness second model handler for the same type. -/
def exHandlerTwo : ModelHandler := fun _ => Val.vNum 2

theorem keysStr_nil {β : Type} : keysStr ([] : List (String × β)) = [] := rfl

theorem keysStr_cons {β : Type} (e : String × β) (es : List (String × β)) :
    keysStr (e :: es) = e.1 :: keysStr es := rfl

theorem keysStr_append {β : Type} (l₁ l₂ : List (String × β)) :
    keysStr (l₁ ++ l₂) = keysStr l₁ ++ keysStr l₂ := by
  simp [keysStr]

theorem lookupStr_setStr_self {β : Type} (l : List (String × β)) (k : String) (v : β) :
    lookupStr (setStr l k v) k = some v := by
  induction l with
  | nil => simp [setStr, lookupStr]
  | cons e es ih =>
    by_cases h : e.1 = k
    · simp [setStr, h, lookupStr]
    · simp [setStr, h, lookupStr, ih]

theorem lookupStr_setStr_ne {β : Type} (l : List (String × β)) (k k' : String) (v : β)
    (h : k' ≠ k) : lookupStr (setStr l k v) k' = lookupStr l k' := by
  induction l with
  | nil => simp [setStr, lookupStr, Ne.symm h]
  | cons e es ih =>
    by_cases he : e.1 = k
    · subst he
      simp [setStr, lookupStr, h, Ne.symm h]
    · simp only [setStr, he, if_false, lookupStr]
      by_cases he' : e.1 = k'
      · simp [he']
      · simp [he', ih]

theorem setStr_setStr_same {β : Type} (l : List (String × β)) (k : String) (v w : β) :
    setStr (setStr l k v) k w = setStr l k w := by
  induction l with
  | nil => simp [setStr]
  | cons e es ih =>
    by_cases h : e.1 = k
    · simp [setStr, h]
    · simp [setStr, h, ih]

theorem mem_keysStr_setStr {β : Type} (l : List (String × β)) (k : String) (v : β) :
    k ∈ keysStr (setStr l k v) := by
  induction l with
  | nil => simp [setStr, keysStr]
  | cons e es ih =>
    by_cases h : e.1 = k
    · simp [setStr, h, keysStr_cons]
    · simp only [setStr, h, if_false, keysStr_cons, List.mem_cons]
      exact Or.inr ih

theorem mem_keysStr_setStr_of_mem {β : Type} (l : List (String × β)) (k k' : String) (v : β)
    (h : k' ∈ keysStr l) : k' ∈ keysStr (setStr l k v) := by
  induction l with
  | nil => simp [keysStr] at h
  | cons e es ih =>
    rw [keysStr_cons] at h
    rcases List.mem_cons.mp h with h | h
    · by_cases he : e.1 = k
      · simp [setStr, he, keysStr_cons, h, he ▸ h]
      · simp [setStr, he, keysStr_cons, h]
    · by_cases he : e.1 = k
      · simp only [setStr, he, if_true, keysStr_cons, List.mem_cons]
        exact Or.inr h
      · simp only [setStr, he, if_false, keysStr_cons, List.mem_cons]
        exact Or.inr (ih h)

theorem keysStr_setStr_of_mem {β : Type} (l : List (String × β)) (k : String) (v : β)
    (h : k ∈ keysStr l) : keysStr (setStr l k v) = keysStr l := by
  induction l with
  | nil => simp [keysStr] at h
  | cons e es ih =>
    by_cases he : e.1 = k
    · simp [setStr, he, keysStr_cons]
    · rw [keysStr_cons] at h
      rcases List.mem_cons.mp h with h | h
      · exact absurd h.symm he
      · simp only [setStr, he, if_false, keysStr_cons]
        rw [ih h]

theorem keysStr_setStr_of_not_mem {β : Type} (l : List (String × β)) (k : String) (v : β)
    (h : k ∉ keysStr l) : keysStr (setStr l k v) = keysStr l ++ [k] := by
  induction l with
  | nil => simp [setStr, keysStr]
  | cons e es ih =>
    rw [keysStr_cons] at h
    have h1 : e.1 ≠ k := fun he => h (List.mem_cons.mpr (Or.inl he.symm))
    have h2 : k ∉ keysStr es := fun hm => h (List.mem_cons.mpr (Or.inr hm))
    simp only [setStr, h1, if_false, keysStr_cons, ih h2, List.cons_append]

theorem nodup_keysStr_setStr {β : Type} (l : List (String × β)) (k : String) (v : β)
    (h : (keysStr l).Nodup) : (keysStr (setStr l k v)).Nodup := by
  by_cases hm : k ∈ keysStr l
  · rw [keysStr_setStr_of_mem l k v hm]; exact h
  · rw [keysStr_setStr_of_not_mem l k v hm]
    simpa [List.nodup_append] using ⟨h, hm⟩

theorem mem_keysStr_of_lookupStr_isSome {β : Type} (l : List (String × β)) (k : String)
    (v : β) (h : lookupStr l k = some v) : k ∈ keysStr l := by
  induction l with
  | nil => simp [lookupStr] at h
  | cons e es ih =>
    by_cases he : e.1 = k
    · simp [keysStr_cons, he]
    · simp only [lookupStr, he, if_false] at h
      simp only [keysStr_cons, List.mem_cons]
      exact Or.inr (ih h)

theorem lookupStr_eq_some_of_mem_nodup {β : Type} (l : List (String × β)) (k : String)
    (v : β) (hnd : (keysStr l).Nodup) (hm : (k, v) ∈ l) : lookupStr l k = some v := by
  induction l with
  | nil => simp at hm
  | cons e es ih =>
    rw [keysStr_cons, List.nodup_cons] at hnd
    rcases List.mem_cons.mp hm with h | h
    · subst h
      simp [lookupStr]
    · have hk : e.1 ≠ k := by
        intro he
        exact hnd.1 (he ▸ (List.mem_map.mpr ⟨(k, v), h, rfl⟩))
      simp only [lookupStr, hk, if_false]
      exact ih hnd.2 h

theorem setStr_eq_map_of_mem_nodup {β : Type} (l : List (String × β)) (k : String) (v : β)
    (hnd : (keysStr l).Nodup) (hm : k ∈ keysStr l) :
    setStr l k v = l.map (fun e => if e.1 = k then (k, v) else e) := by
  induction l with
  | nil => simp [keysStr] at hm
  | cons e es ih =>
    rw [keysStr_cons, List.nodup_cons] at hnd
    by_cases he : e.1 = k
    · have hall : ∀ e' ∈ es, (fun e'' => if e''.1 = k then (k, v) else e'') e' = e' := by
        intro e' he'
        have : e'.1 ≠ k := by
          intro hk
          exact hnd.1 (he ▸ hk ▸ (List.mem_map.mpr ⟨e', he', rfl⟩))
        simp [this]
      simp [setStr, he, List.map_congr_left hall]
    · rw [keysStr_cons] at hm
      rcases List.mem_cons.mp hm with hm | hm
      · exact absurd hm.symm he
      · simp [setStr, he, ih hnd.2 hm]

theorem objAssign_nil (m : Obj) : objAssign m [] = m := rfl

theorem objAssign_cons (m : Obj) (e : String × Val) (l : List (String × Val)) :
    objAssign m (e :: l) = objAssign (setStr m e.1 e.2) l := rfl

theorem objAssign_append (m : Obj) (l₁ l₂ : List (String × Val)) :
    objAssign m (l₁ ++ l₂) = objAssign (objAssign m l₁) l₂ := by
  simp [objAssign, List.foldl_append]

theorem lastAssign_nil (k : String) : lastAssign [] k = none := rfl

theorem lastAssign_cons (e : String × Val) (es : List (String × Val)) (k : String) :
    lastAssign (e :: es) k =
      match lastAssign es k with
      | some v => some v
      | none => if e.1 = k then some e.2 else none := rfl

theorem lookupStr_objAssign_of_lastAssign_none (l : List (String × Val)) (m : Obj)
    (k : String) (h : lastAssign l k = none) : lookupStr (objAssign m l) k = lookupStr m k := by
  induction l generalizing m with
  | nil => rfl
  | cons e es ih =>
    rw [lastAssign_cons] at h
    cases hes : lastAssign es k with
    | some v => simp [hes] at h
    | none =>
      simp only [hes] at h
      have he : e.1 ≠ k := by
        intro hk
        simp [hk] at h
      rw [objAssign_cons, ih _ hes, lookupStr_setStr_ne _ _ _ _ (Ne.symm he)]

theorem lookupStr_objAssign_of_lastAssign_some (l : List (String × Val)) (m : Obj)
    (k : String) (v : Val) (h : lastAssign l k = some v) :
    lookupStr (objAssign m l) k = some v := by
  induction l generalizing m with
  | nil => simp [lastAssign] at h
  | cons e es ih =>
    rw [lastAssign_cons] at h
    cases hes : lastAssign es k with
    | some w =>
      simp only [hes] at h
      cases h
      exact ih _ hes
    | none =>
      simp only [hes] at h
      by_cases he : e.1 = k
      · simp only [he, if_true] at h
        cases h
        rw [objAssign_cons, lookupStr_objAssign_of_lastAssign_none _ _ _ hes, he,
          lookupStr_setStr_self]
      · simp [he] at h

theorem mem_keysStr_objAssign_of_mem (l : List (String × Val)) (m : Obj) (k : String)
    (h : k ∈ keysStr m) : k ∈ keysStr (objAssign m l) := by
  induction l generalizing m with
  | nil => exact h
  | cons e es ih =>
    rw [objAssign_cons]
    exact ih _ (mem_keysStr_setStr_of_mem _ _ _ _ h)

theorem mem_keysStr_objAssign_of_assigned (l : List (String × Val)) (m : Obj) (k : String)
    (h : k ∈ keysStr l) : k ∈ keysStr (objAssign m l) := by
  induction l generalizing m with
  | nil => simp [keysStr] at h
  | cons e es ih =>
    rw [keysStr_cons] at h
    rw [objAssign_cons]
    rcases List.mem_cons.mp h with h | h
    · exact mem_keysStr_objAssign_of_mem _ _ _ (h ▸ mem_keysStr_setStr _ _ _)
    · exact ih _ h

theorem nodup_keysStr_objAssign (l : List (String × Val)) (m : Obj)
    (h : (keysStr m).Nodup) : (keysStr (objAssign m l)).Nodup := by
  induction l generalizing m with
  | nil => exact h
  | cons e es ih =>
    rw [objAssign_cons]
    exact ih _ (nodup_keysStr_setStr _ _ _ h)

theorem keysStr_map_update {β : Type} (l : List (String × β)) (k : String) (v : β) :
    keysStr (l.map (fun e => if e.1 = k then (k, v) else e)) = keysStr l := by
  induction l with
  | nil => rfl
  | cons e es ih =>
    by_cases he : e.1 = k
    · simp only [List.map_cons, he, if_true, keysStr_cons, ih]
    · simp only [List.map_cons, he, if_false, keysStr_cons, ih]

theorem objAssign_eq_map_of_covered (l : List (String × Val)) (M : Obj)
    (hnd : (keysStr M).Nodup) (hcov : ∀ k v, lastAssign l k = some v → k ∈ keysStr M) :
    objAssign M l = M.map (fun e => (e.1, (lastAssign l e.1).getD e.2)) := by
  induction l generalizing M with
  | nil =>
    rw [objAssign_nil]
    have hid : ∀ e ∈ M, (fun e' : String × Val => (e'.1, (lastAssign [] e'.1).getD e'.2)) e = e := by
      intro e _
      simp [lastAssign_nil]
    rw [List.map_congr_left hid]
    simp
  | cons a l' ih =>
    have hha : ∃ w, lastAssign (a :: l') a.1 = some w := by
      rw [lastAssign_cons]
      cases hla : lastAssign l' a.1 with
      | some v => exact ⟨v, rfl⟩
      | none => exact ⟨a.2, by simp⟩
    obtain ⟨w, hw⟩ := hha
    have ha : a.1 ∈ keysStr M := hcov _ _ hw
    rw [objAssign_cons, setStr_eq_map_of_mem_nodup M a.1 a.2 hnd ha]
    have hkeys : keysStr (M.map (fun e => if e.1 = a.1 then (a.1, a.2) else e)) = keysStr M :=
      keysStr_map_update M a.1 a.2
    have hnd' : (keysStr (M.map (fun e => if e.1 = a.1 then (a.1, a.2) else e))).Nodup := by
      rw [hkeys]; exact hnd
    have hcov' : ∀ k v, lastAssign l' k = some v →
        k ∈ keysStr (M.map (fun e => if e.1 = a.1 then (a.1, a.2) else e)) := by
      intro k v hkv
      rw [hkeys]
      exact hcov k v (by rw [lastAssign_cons, hkv])
    rw [ih _ hnd' hcov', List.map_map]
    apply List.map_congr_left
    intro e _
    by_cases he : e.1 = a.1
    · simp only [Function.comp, he, if_true]
      rw [lastAssign_cons]
      cases hla : lastAssign l' a.1 with
      | some v => simp [he, hla]
      | none => simp [he, hla]
    · simp only [Function.comp, he, if_false]
      rw [lastAssign_cons]
      cases hla : lastAssign l' e.1 with
      | some v => simp [hla]
      | none =>
        simp only [hla]
        have : a.1 ≠ e.1 := fun hk => he hk.symm
        simp [this]

theorem objAssign_idem (m : Obj) (l : List (String × Val)) (hnd : (keysStr m).Nodup) :
    objAssign (objAssign m l) l = objAssign m l := by
  have hndM : (keysStr (objAssign m l)).Nodup := nodup_keysStr_objAssign l m hnd
  have hcov : ∀ k v, lastAssign l k = some v → k ∈ keysStr (objAssign m l) := by
    intro k v hkv
    exact mem_keysStr_of_lookupStr_isSome _ _ _
      (lookupStr_objAssign_of_lastAssign_some l m k v hkv)
  rw [objAssign_eq_map_of_covered l _ hndM hcov]
  have hid : ∀ e ∈ objAssign m l,
      (fun e' : String × Val => (e'.1, (lastAssign l e'.1).getD e'.2)) e = e := by
    intro e he
    cases hla : lastAssign l e.1 with
    | none => simp [hla]
    | some v =>
      have h1 : lookupStr (objAssign m l) e.1 = some v :=
        lookupStr_objAssign_of_lastAssign_some l m e.1 v hla
      have h2 : lookupStr (objAssign m l) e.1 = some e.2 :=
        lookupStr_eq_some_of_mem_nodup _ _ _ hndM (by simpa using he)
      rw [h1] at h2
      cases h2
      simp [hla]
  rw [List.map_congr_left hid]
  simp

theorem mergeProviderValues_eq_objAssign (base : Obj) (combined : Obj) :
    mergeProviderValues base combined = objAssign base (asgnOf combined) := by
  induction combined generalizing base with
  | nil => rfl
  | cons e es ih =>
    rw [mergeProviderValues, List.foldl_cons]
    rw [show asgnOf (e :: es) = (match e.2 with | Val.vObj o => o | _ => []) ++ asgnOf es
      from rfl]
    rw [objAssign_append]
    cases e.2 with
    | vObj o => exact ih (objAssign base o)
    | vNull => exact ih base
    | vBool b => exact ih base
    | vNum n => exact ih base
    | vStr s => exact ih base
    | vArr a => exact ih base

theorem mem_insertByPos (p q : Provider) (l : List Provider) :
    q ∈ insertByPos p l ↔ q = p ∨ q ∈ l := by
  induction l with
  | nil => simp [insertByPos]
  | cons r rs ih =>
    by_cases h : posOf p ≤ posOf r
    · simp [insertByPos, h]
    · simp only [insertByPos, h, if_false, List.mem_cons, ih]
      tauto

theorem mem_sortByPos (q : Provider) (l : List Provider) : q ∈ sortByPos l ↔ q ∈ l := by
  induction l with
  | nil => simp [sortByPos]
  | cons p ps ih =>
    simp [sortByPos, mem_insertByPos, ih]

theorem dedupByIdGo_eq_self (l : List Provider) (seen : List Nat)
    (h1 : ∀ p ∈ l, p.pid ∉ seen) (h2 : (l.map (·.pid)).Nodup) : dedupByIdGo seen l = l := by
  induction l generalizing seen with
  | nil => rfl
  | cons p ps ih =>
    rw [List.map_cons, List.nodup_cons] at h2
    have hp : p.pid ∉ seen := h1 p (List.mem_cons_self p ps)
    rw [dedupByIdGo, if_neg hp]
    rw [ih (p.pid :: seen) ?_ h2.2]
    intro q hq hmem
    rcases List.mem_cons.mp hmem with h | h
    · exact h2.1 (h ▸ List.mem_map.mpr ⟨q, hq, rfl⟩)
    · exact h1 q (List.mem_cons.mpr (Or.inr hq)) h

theorem dedupById_eq_self (l : List Provider) (h : (l.map (·.pid)).Nodup) :
    dedupById l = l :=
  dedupByIdGo_eq_self l [] (by simp) h

theorem existingProviderNamesOf_eq_keys (c : CompState) :
    existingProviderNamesOf c = keysStr (existingProviderDataOf c) := by
  rw [existingProviderNamesOf, existingProviderDataOf]
  cases h : lookupStr c.data "providers" with
  | none => rfl
  | some v => cases v <;> rfl

theorem csCombined_eq_objAssign (c : CompState) (pd : List (String × ProviderResult)) :
    csCombined c pd =
      objAssign (existingProviderDataOf c) (pd.map (fun nr => (nr.1, Val.vObj nr.2.values))) := by
  simp [csCombined, objAssign, List.foldl_map]

theorem existingProviderDataOf_csSnapshot (c : CompState) (pd : List (String × ProviderResult)) :
    existingProviderDataOf (csSnapshot c pd) = csCombined c pd := by
  rw [existingProviderDataOf, csSnapshot]
  simp only [lookupStr_setStr_self]

theorem csText_nil (c : CompState) : csText c [] = c.text := by
  by_cases h : c.text = "" <;> simp [csText, h, String.intercalate]

theorem csSnapshot_values (c : CompState) (pd : List (String × ProviderResult)) :
    (csSnapshot c pd).values =
      objAssign c.values
        (asgnOf (csCombined c pd) ++ [("providers", Val.vStr (csText c pd))]) := by
  rw [csSnapshot, objAssign_append, mergeProviderValues_eq_objAssign]
  rfl

theorem csSnapshot_idem (c : CompState) (pd : List (String × ProviderResult))
    (hkeys : (keysStr c.values).Nodup) : csSnapshot (csSnapshot c pd) [] = csSnapshot c pd := by
  have hcombined : csCombined (csSnapshot c pd) [] = csCombined c pd := by
    rw [csCombined, List.foldl_nil, existingProviderDataOf_csSnapshot]
  have htext : csText (csSnapshot c pd) [] = csText c pd := by
    rw [csText_nil, csSnapshot]
  have hvalues : (csSnapshot (csSnapshot c pd) []).values = (csSnapshot c pd).values := by
    rw [csSnapshot_values (csSnapshot c pd) [], hcombined, htext, csSnapshot_values c pd]
    exact objAssign_idem c.values _ hkeys
  have hdata : (csSnapshot (csSnapshot c pd) []).data = (csSnapshot c pd).data := by
    show setStr (csSnapshot c pd).data "providers" (Val.vObj (csCombined (csSnapshot c pd) [])) =
      (csSnapshot c pd).data
    rw [hcombined]
    show setStr (setStr c.data "providers" (Val.vObj (csCombined c pd))) "providers"
        (Val.vObj (csCombined c pd)) =
      setStr c.data "providers" (Val.vObj (csCombined c pd))
    exact setStr_setStr_same _ _ _ _
  have htext2 : (csSnapshot (csSnapshot c pd) []).text = (csSnapshot c pd).text := by
    show csText (csSnapshot c pd) [] = csText c pd
    exact htext
  cases hs : csSnapshot (csSnapshot c pd) []
  cases hs2 : csSnapshot c pd
  rw [hs, hs2] at hvalues hdata htext2
  simp only at hvalues hdata htext2
  simp [hvalues, hdata, htext2]

theorem nodup_map_filter {α β : Type} (l : List α) (Q : α → Bool) (f : α → β)
    (h : (l.map f).Nodup) : ((l.filter Q).map f).Nodup :=
  h.sublist ((l.filter_sublist (p := Q)).map f)

theorem filter_contains_filter (l : List Provider) (Q : Provider → Bool)
    (hn : (l.map (·.name)).Nodup) :
    l.filter (fun p => (((l.filter Q).map (·.name)).contains p.name)) = l.filter Q := by
  apply List.filter_congr
  intro p hp
  cases hq : Q p with
  | true =>
    have : p.name ∈ (l.filter Q).map (·.name) :=
      List.mem_map.mpr ⟨p, List.mem_filter.mpr ⟨hp, hq⟩, rfl⟩
    simp [this]
  | false =>
    have : p.name ∉ (l.filter Q).map (·.name) := by
      intro hmem
      obtain ⟨p', hp', hname⟩ := List.mem_map.mp hmem
      have hp'l : p' ∈ l := (List.mem_filter.mp hp').1
      have : p' = p := List.inj_on_of_nodup_map hn hp'l hp hname
      rw [this] at hp'
      rw [(List.mem_filter.mp hp').2] at hq
      cases hq
    simp [this]

theorem mem_csSelect_of_uncached (providers : List Provider) (c : CompState) (p : Provider)
    (hpid : (providers.map (·.pid)).Nodup) (hp : p ∈ providers)
    (hpriv : p.isPrivate = false) (hdyn : p.dynamic = false)
    (hnc : p.name ∉ existingProviderNamesOf c) : p ∈ csSelect providers c none none := by
  simp only [csSelect]
  rw [mem_sortByPos]
  rw [dedupById_eq_self _
    (nodup_map_filter providers _ (·.pid) hpid)]
  apply List.mem_filter.mpr
  refine ⟨hp, ?_⟩
  have hq : (!p.isPrivate && !p.dynamic && !((existingProviderNamesOf c).contains p.name)) =
      true := by
    simp [hpriv, hdyn, hnc]
  have hmem : p.name ∈ (providers.filter
      (fun q => !q.isPrivate && !q.dynamic &&
        !((existingProviderNamesOf c).contains q.name))).map (·.name) :=
    List.mem_map.mpr ⟨p, List.mem_filter.mpr ⟨hp, hq⟩, rfl⟩
  simpa using hmem

theorem mem_keys_csCombined_of_selected (message : Memory) (c : CompState)
    (sel : List Provider) (p : Provider) (h : p ∈ sel) :
    p.name ∈ keysStr (csCombined c (csProviderData message c sel)) := by
  rw [csCombined_eq_objAssign]
  apply mem_keysStr_objAssign_of_assigned
  rw [csProviderData]
  simp only [keysStr, List.map_map]
  exact List.mem_map.mpr ⟨p, h, rfl⟩

theorem mem_keys_csCombined_of_existing (c : CompState)
    (pd : List (String × ProviderResult)) (k : String)
    (h : k ∈ existingProviderNamesOf c) : k ∈ keysStr (csCombined c pd) := by
  rw [csCombined_eq_objAssign]
  apply mem_keysStr_objAssign_of_mem
  rw [existingProviderNamesOf_eq_keys] at h
  exact h

theorem csSelect_eq_nil_of_covered (providers : List Provider) (c' : CompState)
    (h : ∀ p ∈ providers, p.isPrivate = false → p.dynamic = false →
      p.name ∈ existingProviderNamesOf c') :
    csSelect providers c' none none = [] := by
  simp only [csSelect]
  have hempty : providers.filter
      (fun p => !p.isPrivate && !p.dynamic &&
        !((existingProviderNamesOf c').contains p.name)) = [] := by
    rw [List.filter_eq_nil_iff]
    intro p hp
    simp only [Bool.and_eq_true, Bool.not_eq_true', Bool.not_eq_true, not_and]
    intro hpd
    simp [h p hp hpd.1 hpd.2]
  simp only [hempty, List.map_nil]
  have hempty2 : providers.filter (fun p => (([] : List String)).contains p.name) = [] := by
    simp
  rw [hempty2]
  rfl

theorem csSelect_after_none_none (providers : List Provider) (message : Memory)
    (c : CompState) (hpid : (providers.map (·.pid)).Nodup) :
    csSelect providers
      (csSnapshot c (csProviderData message c (csSelect providers c none none)))
      none none = [] := by
  apply csSelect_eq_nil_of_covered
  intro p hp hpriv hdyn
  have hnames : existingProviderNamesOf
      (csSnapshot c (csProviderData message c (csSelect providers c none none))) =
      keysStr (csCombined c (csProviderData message c (csSelect providers c none none))) := by
    rw [existingProviderNamesOf_eq_keys, existingProviderDataOf_csSnapshot]
  rw [hnames]
  by_cases hcached : p.name ∈ existingProviderNamesOf c
  · exact mem_keys_csCombined_of_existing c _ p.name hcached
  · exact mem_keys_csCombined_of_selected message c _ p
      (mem_csSelect_of_uncached providers c p hpid hp hpriv hdyn hcached)

theorem pairwise_insertByPos (p : Provider) (l : List Provider)
    (h : List.Pairwise (fun a b => posOf a ≤ posOf b) l) :
    List.Pairwise (fun a b => posOf a ≤ posOf b) (insertByPos p l) := by
  induction l with
  | nil => simp [insertByPos]
  | cons q qs ih =>
    rw [List.pairwise_cons] at h
    by_cases hle : posOf p ≤ posOf q
    · rw [insertByPos, if_pos hle, List.pairwise_cons]
      constructor
      · intro x hx
        rcases List.mem_cons.mp hx with hx | hx
        · exact hx ▸ hle
        · exact le_trans hle (h.1 x hx)
      · exact List.pairwise_cons.mpr h
    · rw [insertByPos, if_neg hle, List.pairwise_cons]
      constructor
      · intro x hx
        rcases (mem_insertByPos p x qs).mp hx with hx | hx
        · exact hx ▸ (le_of_lt (lt_of_not_le hle))
        · exact h.1 x hx
      · exact ih h.2

theorem sortByPos_sorted (l : List Provider) :
    List.Pairwise (fun a b => posOf a ≤ posOf b) (sortByPos l) := by
  induction l with
  | nil => simp [sortByPos]
  | cons p ps ih => exact pairwise_insertByPos p (sortByPos ps) ih

theorem filter_insertByPos (p : Provider) (l : List Provider) (n : Int) :
    (insertByPos p l).filter (fun q => posOf q = n) =
      if posOf p = n then p :: l.filter (fun q => posOf q = n)
      else l.filter (fun q => posOf q = n) := by
  induction l with
  | nil => by_cases h : posOf p = n <;> simp [insertByPos, h]
  | cons q qs ih =>
    by_cases hle : posOf p ≤ posOf q
    · rw [insertByPos, if_pos hle]
      by_cases hp : posOf p = n <;> simp [hp]
    · rw [insertByPos, if_neg hle]
      have hq : ¬(posOf q = n ∧ posOf p = n) := by
        rintro ⟨h1, h2⟩
        exact hle (le_of_eq (h2.trans h1.symm))
      by_cases hp : posOf p = n
      · have hqn : ¬ posOf q = n := fun hc => hq ⟨hc, hp⟩
        simp [hp, hqn, ih]
      · by_cases hqn : posOf q = n <;> simp [hp, hqn, ih]

theorem sortByPos_stable (l : List Provider) (n : Int) :
    (sortByPos l).filter (fun q => posOf q = n) = l.filter (fun q => posOf q = n) := by
  induction l with
  | nil => rfl
  | cons p ps ih =>
    rw [sortByPos, filter_insertByPos]
    by_cases hp : posOf p = n <;> simp [hp, ih]

theorem csSelect_empty_cache (providers : List Provider)
    (hnames : (providers.map (·.name)).Nodup) (hpid : (providers.map (·.pid)).Nodup) :
    csSelect providers emptyCompState none none =
      sortByPos (providers.filter (fun p => !p.isPrivate && !p.dynamic)) := by
  simp only [csSelect]
  have hexist : existingProviderNamesOf emptyCompState = ([] : List String) := rfl
  rw [hexist]
  have hpred : providers.filter
      (fun p => !p.isPrivate && !p.dynamic && !(([] : List String).contains p.name)) =
      providers.filter (fun p => !p.isPrivate && !p.dynamic) := by
    apply List.filter_congr
    intro p _
    simp
  rw [hpred, filter_contains_filter providers _ hnames,
    dedupById_eq_self _ (nodup_map_filter providers _ (·.pid) hpid)]

theorem csText_empty_cache (pd : List (String × ProviderResult)) :
    csText emptyCompState pd =
      String.intercalate "\n" ((pd.map (fun nr => nr.2.text)).filter (fun t => t ≠ "")) := by
  simp only [csText, emptyCompState]
  simp
  intro h
  exact h.symm

/-- C1: composeState is idempotent per message id.  After one call of
composeState(message) with no filterList and no includeList (which leaves
the cache entry holding the output of every registered non-private,
non-dynamic provider), a second such call invokes no provider and returns a
snapshot (values, data, text) identical to the cached one.  The hypotheses
state that the registered provider objects are pairwise distinct and that
the pre-existing cache entry has well-formed (duplicate-free) value keys,
both automatic for the JavaScript objects being modelled. -/
theorem composeState_idempotent_per_message (rt : AgentRuntime) (message : Memory)
    (hpid : (rt.providers.map (·.pid)).Nodup)
    (hkeys : (keysStr ((lookupStr rt.stateCache message.id).getD emptyCompState).values).Nodup) :
    (composeState (composeState rt message none none).runtime message none none).invoked =
      [] ∧
    (composeState (composeState rt message none none).runtime message none none).state =
      (composeState rt message none none).state ∧
    lookupStr (composeState rt message none none).runtime.stateCache message.id =
      some (composeState rt message none none).state := by
  have hstate1 : (composeState rt message none none).state =
      csSnapshot ((lookupStr rt.stateCache message.id).getD emptyCompState)
        (csProviderData message ((lookupStr rt.stateCache message.id).getD emptyCompState)
          (csSelect rt.providers ((lookupStr rt.stateCache message.id).getD emptyCompState)
            none none)) := rfl
  have hcache1 : (composeState rt message none none).runtime.stateCache =
      setStr rt.stateCache message.id ((composeState rt message none none).state) := rfl
  have hprov1 : (composeState rt message none none).runtime.providers = rt.providers := rfl
  have hlook : lookupStr (composeState rt message none none).runtime.stateCache message.id =
      some ((composeState rt message none none).state) := by
    rw [hcache1]
    exact lookupStr_setStr_self _ _ _
  have hcached2 : (lookupStr (composeState rt message none none).runtime.stateCache
      message.id).getD emptyCompState = (composeState rt message none none).state := by
    rw [hlook]
    rfl
  have hsel2 : csSelect (composeState rt message none none).runtime.providers
      ((lookupStr (composeState rt message none none).runtime.stateCache message.id).getD
        emptyCompState) none none = [] := by
    rw [hprov1, hcached2, hstate1]
    exact csSelect_after_none_none rt.providers message _ hpid
  have hinv2 : (composeState (composeState rt message none none).runtime message none none).invoked =
      (csSelect (composeState rt message none none).runtime.providers
        ((lookupStr (composeState rt message none none).runtime.stateCache message.id).getD
          emptyCompState) none none).map (·.name) := rfl
  have hstate2 : (composeState (composeState rt message none none).runtime message none none).state =
      csSnapshot
        ((lookupStr (composeState rt message none none).runtime.stateCache message.id).getD
          emptyCompState)
        (csProviderData message
          ((lookupStr (composeState rt message none none).runtime.stateCache message.id).getD
            emptyCompState)
          (csSelect (composeState rt message none none).runtime.providers
            ((lookupStr (composeState rt message none none).runtime.stateCache message.id).getD
              emptyCompState) none none)) := rfl
  refine ⟨?_, ?_, hlook⟩
  · rw [hinv2, hsel2]
    rfl
  · rw [hstate2, hsel2, hcached2, hstate1]
    show csSnapshot (csSnapshot _ _) (csProviderData message _ []) = csSnapshot _ _
    rw [show ∀ c, csProviderData message c [] = [] from fun _ => rfl]
    exact csSnapshot_idem _ _ hkeys

/-- Witness for C1 at the concrete two-provider runtime: the second call
invokes no provider and returns the state of the first call. -/
theorem composeState_idempotent_per_message_witness :
    (composeState (composeState exProviderRuntime exMessage none none).runtime exMessage
      none none).invoked = [] ∧
    (composeState (composeState exProviderRuntime exMessage none none).runtime exMessage
      none none).state = (composeState exProviderRuntime exMessage none none).state := by
  have h := composeState_idempotent_per_message exProviderRuntime exMessage (by decide)
    (by decide)
  exact ⟨h.1, h.2.1⟩

/-- Counterexample for C3 as originally stated: provider registration does
not de-duplicate, and composeState selects by name, so a private provider
sharing the name of a selected public one is also fetched and its text
enters the newline join.  On the concrete runtime holding public P1
(position 0, text ctx1), public P2 (position 5, text ctx2) and a private
provider also named P1 (position 1, text secret), the code invokes three
providers and returns ctx1, newline, secret, newline, ctx2 — not the join
over only the non-private, non-dynamic providers the claim requires. -/
theorem composeState_duplicate_name_counterexample :
    (composeState exDupNameRuntime exMessage none none).state.text ≠
      String.intercalate "\n"
        (((sortByPos (exDupNameRuntime.providers.filter
          (fun p => !p.isPrivate && !p.dynamic))).map
            (fun p => (p.get exMessage emptyCompState).text)).filter (fun t => t ≠ "")) ∧
    (composeState exDupNameRuntime exMessage none none).state.text = "ctx1\nsecret\nctx2" ∧
    String.intercalate "\n"
        (((sortByPos (exDupNameRuntime.providers.filter
          (fun p => !p.isPrivate && !p.dynamic))).map
            (fun p => (p.get exMessage emptyCompState).text)).filter (fun t => t ≠ "")) =
      "ctx1\nctx2" ∧
    (composeState exDupNameRuntime exMessage none none).invoked = ["P1", "P1", "P2"] ∧
    (sortByPos (exDupNameRuntime.providers.filter
      (fun p => !p.isPrivate && !p.dynamic))).map (·.name) = ["P1", "P2"] ∧
    lookupStr exDupNameRuntime.stateCache exMessage.id = none := by
  refine ⟨?_, ?_, ?_, ?_, ?_, ?_⟩ <;> first | decide | rfl

/-- C3 as amended: with an empty cache entry, no filterList or includeList,
and registered provider names pairwise distinct (selection is by name, so a
private or dynamic provider sharing a selected name would also be fetched,
as the counterexample shows), composeState invokes exactly the registered
non-private, non-dynamic providers, in the order of the stable ascending
sort by declared position (missing position treated as 0 by posOf), and the
returned text is the non-empty provider texts joined by a newline in that
order.  The sort order conjuncts state that the invocation list is
ascending in position and that providers of equal position stay in
registration order.  The pairwise-distinct-pids hypothesis is the JS
well-formedness of the provider list, as in the idempotence theorem. -/
theorem composeState_empty_cache_end_to_end (rt : AgentRuntime) (message : Memory)
    (hcache : lookupStr rt.stateCache message.id = none)
    (hnames : (rt.providers.map (·.name)).Nodup)
    (hpid : (rt.providers.map (·.pid)).Nodup) :
    (composeState rt message none none).invoked =
      (sortByPos (rt.providers.filter (fun p => !p.isPrivate && !p.dynamic))).map (·.name) ∧
    (composeState rt message none none).state.text =
      String.intercalate "\n"
        (((sortByPos (rt.providers.filter (fun p => !p.isPrivate && !p.dynamic))).map
          (fun p => (p.get message emptyCompState).text)).filter (fun t => t ≠ "")) ∧
    List.Pairwise (fun a b => posOf a ≤ posOf b)
      (sortByPos (rt.providers.filter (fun p => !p.isPrivate && !p.dynamic))) ∧
    (∀ n : Int,
      (sortByPos (rt.providers.filter (fun p => !p.isPrivate && !p.dynamic))).filter
        (fun q => posOf q = n) =
      (rt.providers.filter (fun p => !p.isPrivate && !p.dynamic)).filter
        (fun q => posOf q = n)) := by
  have hc0 : (lookupStr rt.stateCache message.id).getD emptyCompState = emptyCompState := by
    rw [hcache]
    rfl
  have hsel : csSelect rt.providers
      ((lookupStr rt.stateCache message.id).getD emptyCompState) none none =
      sortByPos (rt.providers.filter (fun p => !p.isPrivate && !p.dynamic)) := by
    rw [hc0]
    exact csSelect_empty_cache rt.providers hnames hpid
  refine ⟨?_, ?_, sortByPos_sorted _, fun n => sortByPos_stable _ n⟩
  · show (csSelect rt.providers
        ((lookupStr rt.stateCache message.id).getD emptyCompState) none none).map (·.name) =
      _
    rw [hsel]
  · show csText ((lookupStr rt.stateCache message.id).getD emptyCompState)
        (csProviderData message ((lookupStr rt.stateCache message.id).getD emptyCompState)
          (csSelect rt.providers ((lookupStr rt.stateCache message.id).getD emptyCompState)
            none none)) = _
    rw [hc0, hsel] at *
    rw [hc0, hsel]
    rw [csText_empty_cache]
    rw [csProviderData]
    rw [List.map_map]
    rfl

/-- Witness for C3: on the concrete runtime holding P2 (position 5, text
ctx2) registered before P1 (position 0, text ctx1), composeState fetches P1
then P2 and returns the text ctx1, newline, ctx2. -/
theorem composeState_empty_cache_end_to_end_witness :
    (composeState exProviderRuntime exMessage none none).invoked = ["P1", "P2"] ∧
    (composeState exProviderRuntime exMessage none none).state.text = "ctx1\nctx2" := by
  have h := composeState_empty_cache_end_to_end exProviderRuntime exMessage (by rfl)
    (by decide) (by decide)
  exact ⟨h.1.trans (by rfl), h.2.1.trans (by rfl)⟩

/-- C9: composeState modifies at most the state-cache entry keyed by
message.id: every other cache key keeps its previous entry, and the
registries of the runtime are untouched. -/
theorem composeState_frame (rt : AgentRuntime) (message : Memory)
    (filterList includeList : Option (List String)) (k : String) (h : k ≠ message.id) :
    lookupStr (composeState rt message filterList includeList).runtime.stateCache k =
      lookupStr rt.stateCache k ∧
    (composeState rt message filterList includeList).runtime.providers = rt.providers ∧
    (composeState rt message filterList includeList).runtime.actions = rt.actions ∧
    (composeState rt message filterList includeList).runtime.models = rt.models ∧
    (composeState rt message filterList includeList).runtime.services = rt.services := by
  refine ⟨?_, rfl, rfl, rfl, rfl⟩
  show lookupStr (setStr rt.stateCache message.id _) k = lookupStr rt.stateCache k
  exact lookupStr_setStr_ne _ _ _ _ h

/-- Witness for C9 at the concrete runtime: a different key still has no
cache entry after the call. -/
theorem composeState_frame_witness :
    lookupStr (composeState exProviderRuntime exMessage none none).runtime.stateCache
      "other-key" = lookupStr exProviderRuntime.stateCache "other-key" :=
  (composeState_frame exProviderRuntime exMessage none none "other-key" (by decide)).1

theorem removeFirstUnderscore_eq_takeWhile_dropWhile (l : List Char) :
    removeFirstUnderscore l =
      l.takeWhile (fun c => c ≠ '_') ++ (l.dropWhile (fun c => c ≠ '_')).drop 1 := by
  induction l with
  | nil => rfl
  | cons c cs ih =>
    by_cases h : c = '_'
    · simp [removeFirstUnderscore, List.takeWhile_cons, List.dropWhile_cons, h]
    · simp [removeFirstUnderscore, List.takeWhile_cons, List.dropWhile_cons, h, ih]

/-- Counterexample for C2: the code's normalizeAction lower-cases and
deletes only the first underscore (JS String.replace with a string pattern),
so on SEND_A_MESSAGE it yields senda_message, not the sendamessage the
claim's all-underscore deletion requires. -/
theorem normalizeAction_counterexample :
    normalizeAction "SEND_A_MESSAGE" ≠ stripAllUnderscoresSpec "SEND_A_MESSAGE" ∧
    normalizeAction "SEND_A_MESSAGE" = "senda_message" ∧
    stripAllUnderscoresSpec "SEND_A_MESSAGE" = "sendamessage" := by
  refine ⟨?_, ?_, ?_⟩ <;> decide

/-- C2 as amended: in processActions the requested name, the registered
names and the similes are normalized by lower-casing and removing only the
first underscore character; for every string s the normalization equals
lowercase(s) with the first underscore (if any) deleted. -/
theorem normalizeAction_first_underscore_only (s : String) :
    normalizeAction s = stripFirstUnderscoreSpec s :=
  congrArg String.mk (removeFirstUnderscore_eq_takeWhile_dropWhile (jsToLower s).data)

theorem coerceSetting_of_falsy (v : Val) (h : truthy v = false) :
    coerceSetting (some v) = Val.vNull := by
  cases v with
  | vNull => rfl
  | vBool b =>
    simp only [truthy] at h
    subst h
    rfl
  | vNum n =>
    simp only [truthy, bne_eq_false_iff_eq] at h
    subst h
    rfl
  | vStr s =>
    simp only [truthy, decide_eq_false_iff_not, not_not] at h
    subst h
    rfl
  | vArr elems => simp [truthy] at h
  | vObj fields => simp [truthy] at h

theorem coerce_jsOr_chain (o X : Option Val) (L : List (Option Val))
    (h : coerceSetting X = coerceSetting (firstTruthy L)) :
    coerceSetting (jsOr o X) = coerceSetting (firstTruthy (o :: L)) := by
  cases o with
  | none => exact h
  | some v =>
    cases ht : truthy v with
    | true => simp [jsOr, firstTruthy, ht]
    | false => simpa [jsOr, firstTruthy, ht] using h

theorem coerce_last (o : Option Val) : coerceSetting o = coerceSetting (firstTruthy [o]) := by
  cases o with
  | none => rfl
  | some v =>
    cases ht : truthy v with
    | true => simp [firstTruthy, ht]
    | false =>
      rw [coerceSetting_of_falsy v ht]
      simp [firstTruthy, ht]
      rfl

/-- Counterexample for C4: a falsy value held by a higher-priority source
is skipped by the JavaScript or-chain of getSetting, not returned as the
claim requires.  With secrets holding the empty string under the key and
settings holding x, getSetting returns x, while the claim's
highest-priority-source-containing-the-key reading yields null (the empty
string is falsy and normalizes to null). -/
theorem getSetting_claim_counterexample :
    getSetting exSettingRuntime "SAMPLE_KEY" = Val.vStr "x" ∧
    getSettingClaimSpec exSettingRuntime "SAMPLE_KEY" = Val.vNull ∧
    getSetting exSettingRuntime "SAMPLE_KEY" ≠
      getSettingClaimSpec exSettingRuntime "SAMPLE_KEY" := by
  refine ⟨rfl, rfl, ?_⟩
  intro h
  rw [show getSetting exSettingRuntime "SAMPLE_KEY" = Val.vStr "x" from rfl,
    show getSettingClaimSpec exSettingRuntime "SAMPLE_KEY" = Val.vNull from rfl] at h
  exact Val.noConfusion h

/-- C4 as amended: getSetting returns the value of the highest-priority
source holding a truthy value, in priority order agent secrets, agent
settings, nested settings-secrets, then process-wide configuration (a
source holding a falsy value is skipped); the strings true and false are
coerced to booleans and the result is null when no source holds a truthy
value. -/
theorem getSetting_eq_amendedSpec (rt : AgentRuntime) (key : String) :
    getSetting rt key = getSettingAmendedSpec rt key := by
  rw [getSetting, getSettingAmendedSpec]
  exact coerce_jsOr_chain _ _ _ (coerce_jsOr_chain _ _ _ (coerce_jsOr_chain _ _ _
    (coerce_last _)))

/-- C10: registerPlugin with a null or undefined plugin returns immediately
and leaves every part of the runtime unchanged: the plugins list, actions,
evaluators, providers, models, routes, event handlers, services, and the
bound database adapter, with no events recorded. -/
theorem registerPlugin_null_noop (rt : AgentRuntime) :
    registerPlugin rt none = (rt, []) ∧
    (registerPlugin rt none).1.plugins = rt.plugins ∧
    (registerPlugin rt none).1.actions = rt.actions ∧
    (registerPlugin rt none).1.evaluators = rt.evaluators ∧
    (registerPlugin rt none).1.providers = rt.providers ∧
    (registerPlugin rt none).1.models = rt.models ∧
    (registerPlugin rt none).1.routes = rt.routes ∧
    (registerPlugin rt none).1.events = rt.events ∧
    (registerPlugin rt none).1.services = rt.services ∧
    (registerPlugin rt none).1.adapter = rt.adapter ∧
    (registerPlugin rt none).2 = [] :=
  ⟨rfl, rfl, rfl, rfl, rfl, rfl, rfl, rfl, rfl, rfl, rfl⟩

theorem registerServices_foldl_fst (ds : List ServiceDef) (rt : AgentRuntime)
    (evs : List REvent) :
    (ds.foldl
      (fun acc sd =>
        let r := registerService acc.1 sd
        (r.1, acc.2 ++ r.2))
      (rt, evs)).1 =
    ds.foldl (fun r sd => (registerService r sd).1) rt := by
  induction ds generalizing rt evs with
  | nil => rfl
  | cons d ds' ih =>
    rw [List.foldl_cons, List.foldl_cons]
    exact ih _ _

theorem registerServices_runtime (rt : AgentRuntime) (ds : List ServiceDef) :
    (registerServices rt ds).1 = ds.foldl (fun r sd => (registerService r sd).1) rt :=
  registerServices_foldl_fst ds rt []

theorem registerServices_lookup (ds : List ServiceDef) :
    ∀ (rt : AgentRuntime) (t : String), t ≠ "" →
    lookupStr (ds.foldl (fun r sd => (registerService r sd).1) rt).services t =
      (match lookupStr rt.services t with
        | some x => some x
        | none => (ds.find? (fun d => d.serviceType = some t)).map (fun d => d.start)) := by
  induction ds with
  | nil =>
    intro rt t _
    cases h : lookupStr rt.services t <;> simp [h]
  | cons d ds' ih =>
    intro rt t ht
    rw [List.foldl_cons, ih _ t ht]
    cases hst : d.serviceType with
    | none =>
      have hr : (registerService rt d).1 = rt := by simp [registerService, hst]
      rw [hr]
      have hf : List.find? (fun d' => d'.serviceType = some t) (d :: ds') =
          List.find? (fun d' => d'.serviceType = some t) ds' :=
        List.find?_cons_of_neg _ (by simp [hst])
      rw [hf]
    | some u =>
      by_cases hu : u = ""
      · subst hu
        have hr : (registerService rt d).1 = rt := by simp [registerService, hst]
        rw [hr]
        have hf : List.find? (fun d' => d'.serviceType = some t) (d :: ds') =
            List.find? (fun d' => d'.serviceType = some t) ds' :=
          List.find?_cons_of_neg _ (by simp [hst, Ne.symm ht])
        rw [hf]
      · by_cases hreg : (lookupStr rt.services u).isSome
        · have hr : (registerService rt d).1 = rt := by
            simp [registerService, hst, hu, hreg]
          rw [hr]
          by_cases hut : u = t
          · subst hut
            obtain ⟨x, hx⟩ := Option.isSome_iff_exists.mp hreg
            rw [hx]
          · have hf : List.find? (fun d' => d'.serviceType = some t) (d :: ds') =
                List.find? (fun d' => d'.serviceType = some t) ds' :=
              List.find?_cons_of_neg _ (by simp [hst, hut])
            rw [hf]
        · have hr : (registerService rt d).1 =
              { rt with services := setStr rt.services u d.start } := by
            simp [registerService, hst, hu, hreg]
          rw [hr]
          by_cases hut : u = t
          · subst hut
            have hnone : lookupStr rt.services u = none := by
              cases h : lookupStr rt.services u with
              | none => rfl
              | some x => rw [h] at hreg; simp at hreg
            rw [show lookupStr ({ rt with services := setStr rt.services u d.start } :
                AgentRuntime).services u = some d.start from lookupStr_setStr_self _ _ _,
              hnone]
            have hf : List.find? (fun d' => d'.serviceType = some u) (d :: ds') = some d :=
              List.find?_cons_of_pos _ (by simp [hst])
            rw [hf]
            rfl
          · rw [show lookupStr ({ rt with services := setStr rt.services u d.start } :
                AgentRuntime).services t = lookupStr rt.services t from
              lookupStr_setStr_ne _ _ _ _ (fun hh => hut hh.symm)]
            have hf : List.find? (fun d' => d'.serviceType = some t) (d :: ds') =
                List.find? (fun d' => d'.serviceType = some t) ds' :=
              List.find?_cons_of_neg _ (by simp [hst, hut])
            rw [hf]

/-- C6: registerService preserves the at-most-one-live-instance invariant.
A descriptor without a service-type tag (or with the empty, falsy one) is a
no-op; a descriptor whose type is already registered is skipped with only
the duplicate warning, so its start factory never runs and the runtime is
unchanged; and after any sequence of registrations from an empty service
map, each type is mapped to the instance started by the first descriptor
carrying that type. -/
theorem registerService_at_most_one :
    (∀ (rt : AgentRuntime) (sd : ServiceDef),
      sd.serviceType = none ∨ sd.serviceType = some "" → registerService rt sd = (rt, [])) ∧
    (∀ (rt : AgentRuntime) (sd : ServiceDef) (t : String),
      sd.serviceType = some t → t ≠ "" → (lookupStr rt.services t).isSome →
      registerService rt sd = (rt, [REvent.svcWarnDuplicate t])) ∧
    (∀ (rt : AgentRuntime) (ds : List ServiceDef) (t : String),
      rt.services = [] → t ≠ "" →
      lookupStr (registerServices rt ds).1.services t =
        (ds.find? (fun d => d.serviceType = some t)).map (fun d => d.start)) := by
  refine ⟨?_, ?_, ?_⟩
  · intro rt sd h
    rcases h with h | h <;> simp [registerService, h]
  · intro rt sd t hst ht hreg
    simp [registerService, hst, ht, hreg]
  · intro rt ds t hempty ht
    rw [registerServices_runtime, registerServices_lookup ds rt t ht, hempty]
    rfl

/-- Witness for C6: an untagged descriptor is a no-op; registering a second
descriptor of the type twitter is skipped with a warning and without
starting it; after registering both descriptors the type maps to the first
instance. -/
theorem registerService_at_most_one_witness :
    registerService baseRuntime exServiceUntagged = (baseRuntime, []) ∧
    registerService (registerService baseRuntime exServiceA).1 exServiceB =
      ((registerService baseRuntime exServiceA).1, [REvent.svcWarnDuplicate "twitter"]) ∧
    lookupStr (registerServices baseRuntime [exServiceA, exServiceB]).1.services "twitter" =
      some 100 := by
  refine ⟨registerService_at_most_one.1 baseRuntime exServiceUntagged (Or.inl rfl),
    registerService_at_most_one.2.1 (registerService baseRuntime exServiceA).1 exServiceB
      "twitter" rfl (by decide) (by decide), ?_⟩
  exact (registerService_at_most_one.2.2 baseRuntime [exServiceA, exServiceB] "twitter" rfl
    (by decide)).trans (by decide)

/-- C7: useModel throws a NotFound error carrying the model-type key when
no handler is registered for the type, and otherwise invokes the
first-registered handler of that type and returns its raw result;
registerModel appends and never replaces, so an existing first handler is
still resolved after later registrations, and a registration on an empty
type becomes the resolved handler. -/
theorem useModel_first_registered :
    (∀ (rt : AgentRuntime) (modelType : String) (params : Val),
      getModel rt modelType = none →
      useModel rt modelType params =
        Except.error ("No handler found for delegate type: " ++ modelType)) ∧
    (∀ (rt : AgentRuntime) (modelType : String) (params : Val) (h : ModelHandler),
      getModel rt modelType = some h →
      useModel rt modelType params =
        Except.ok (h params, useModelLogBody modelType params (h params))) ∧
    (∀ (rt : AgentRuntime) (modelType : String) (h newHandler : ModelHandler),
      getModel rt modelType = some h →
      getModel (registerModel rt modelType newHandler) modelType = some h) ∧
    (∀ (rt : AgentRuntime) (modelType : String) (newHandler : ModelHandler),
      getModel rt modelType = none →
      getModel (registerModel rt modelType newHandler) modelType = some newHandler) := by
  refine ⟨?_, ?_, ?_, ?_⟩
  · intro rt modelType params h
    rw [useModel, h]
  · intro rt modelType params h hh
    rw [useModel, hh]
  · intro rt modelType h newHandler hh
    cases hl : lookupStr rt.models modelType with
    | none => rw [getModel, hl] at hh; cases hh
    | some l =>
      cases l with
      | nil => rw [getModel, hl] at hh; cases hh
      | cons h₀ tl =>
        rw [getModel, hl] at hh
        simp only [Option.some.injEq] at hh
        subst hh
        have hsome : (lookupStr rt.models modelType).isSome = true := by rw [hl]; rfl
        rw [registerModel, if_pos hsome, hl]
        rw [getModel]
        simp only [lookupStr_setStr_self]
        rfl
  · intro rt modelType newHandler hh
    cases hl : lookupStr rt.models modelType with
    | none =>
      have hsome : (lookupStr rt.models modelType).isSome = false := by rw [hl]; rfl
      rw [registerModel, if_neg (by simp [hsome])]
      rw [show lookupStr (setStr rt.models modelType []) modelType = some [] from
        lookupStr_setStr_self _ _ _]
      rw [getModel]
      simp only [List.nil_append, setStr_setStr_same, lookupStr_setStr_self]
      rfl
    | some l =>
      cases l with
      | nil =>
        have hsome : (lookupStr rt.models modelType).isSome = true := by rw [hl]; rfl
        rw [registerModel, if_pos hsome, hl]
        rw [getModel]
        simp only [List.nil_append, lookupStr_setStr_self]
        rfl
      | cons h₀ tl => rw [getModel, hl] at hh; cases hh

/-- Witness for C7: with no handler registered, useModel fails with the
error carrying the key; after registering two handlers for the same type,
useModel invokes the first and returns its raw result. -/
theorem useModel_first_registered_witness :
    useModel baseRuntime "TEXT_LARGE" (Val.vStr "q") =
      Except.error "No handler found for delegate type: TEXT_LARGE" ∧
    useModel (registerModel (registerModel baseRuntime "TEXT_LARGE" exHandlerOne)
        "TEXT_LARGE" exHandlerTwo) "TEXT_LARGE" (Val.vStr "q") =
      Except.ok (Val.vNum 1,
        useModelLogBody "TEXT_LARGE" (Val.vStr "q") (Val.vNum 1)) := by
  constructor
  · exact (useModel_first_registered.1 baseRuntime "TEXT_LARGE" (Val.vStr "q") rfl).trans rfl
  · have h1 : getModel (registerModel baseRuntime "TEXT_LARGE" exHandlerOne) "TEXT_LARGE" =
        some exHandlerOne :=
      useModel_first_registered.2.2.2 baseRuntime "TEXT_LARGE" exHandlerOne rfl
    have h2 : getModel (registerModel (registerModel baseRuntime "TEXT_LARGE" exHandlerOne)
        "TEXT_LARGE" exHandlerTwo) "TEXT_LARGE" = some exHandlerOne :=
      useModel_first_registered.2.2.1 _ "TEXT_LARGE" exHandlerOne exHandlerTwo h1
    exact (useModel_first_registered.2.1 _ "TEXT_LARGE" (Val.vStr "q") exHandlerOne h2).trans
      rfl

theorem composeState_runtime_actions (rt : AgentRuntime) (message : Memory)
    (filterList includeList : Option (List String)) :
    (composeState rt message filterList includeList).runtime.actions = rt.actions := rfl

theorem paNames_state_independent (rt : AgentRuntime) (message : Memory)
    (responses : List Memory) (s₁ s₂ : Option CompState) (nm : String) (more : List String) :
    paNames rt message responses s₁ (nm :: more) = paNames rt message responses s₂ (nm :: more) :=
  rfl

theorem paResponses_state_independent (message : Memory) (responsesAll : List Memory) :
    ∀ (rest : List Memory) (rt : AgentRuntime) (s₁ s₂ : Option CompState),
    paResponses rt message responsesAll s₁ rest = paResponses rt message responsesAll s₂ rest := by
  intro rest
  induction rest with
  | nil => intro rt s₁ s₂; rfl
  | cons r rest' ih =>
    intro rt s₁ s₂
    cases hact : r.content.actions with
    | none =>
      simp only [paResponses, hact]
      rw [ih rt s₁ s₂]
    | some names =>
      cases names with
      | nil =>
        simp only [paResponses, hact, List.isEmpty_nil, if_true]
        rw [ih rt s₁ s₂]
      | cons nm more =>
        simp only [paResponses, hact, List.isEmpty_cons, Bool.false_eq_true, if_false]
        rw [paNames_state_independent rt message responsesAll s₁ s₂ nm more]

/-- C8: the observable behavior of processActions does not depend on its
state argument: the passed-in state is reassigned from composeState before
any use, so two calls differing only in that argument produce the same
runtime, the same trace (the same handlers invoked with the same state
arguments) and the same outcome. -/
theorem processActions_state_independent (rt : AgentRuntime) (message : Memory)
    (responses : List Memory) (st₁ st₂ : Option CompState) :
    processActions rt message responses st₁ = processActions rt message responses st₂ :=
  paResponses_state_independent message responses responses rt st₁ st₂

/-- C5: in processActions, a requested name that resolves to no registered
action is recorded as an error and processing continues with the next
requested action; a resolved action without a handler is likewise recorded
and skipped; and a thrown handler error propagates out immediately,
aborting the remaining requested actions and the remaining responses.  For
a response requesting the three names in sequence, the call returns the
error of the third handler, the trace holds exactly the two error records
and the aborted handler invocation, and nothing from the trailing responses
is processed. -/
theorem processActions_error_handling (rt : AgentRuntime) (message : Memory) (r : Memory)
    (rest : List Memory) (st : Option CompState) (bad nh good : String) (a₁ a₂ : Action)
    (hf : ActionHandler) (e : String)
    (h1 : r.content.actions = some [bad, nh, good])
    (h2 : resolveAction rt.actions bad = none)
    (h3 : resolveAction rt.actions nh = some a₁)
    (h4 : a₁.handler = none)
    (h5 : resolveAction rt.actions good = some a₂)
    (h6 : a₂.handler = some hf)
    (h7 : ∀ s : CompState, hf message s (r :: rest) = Except.error e) :
    processActions rt message (r :: rest) st =
      ((composeState (composeState (composeState rt message (some ["RECENT_MESSAGES"])
          none).runtime message (some ["RECENT_MESSAGES"]) none).runtime message
          (some ["RECENT_MESSAGES"]) none).runtime,
        [PAEvent.errNoAction bad, PAEvent.errNoHandler a₁.name,
          PAEvent.handlerCall a₂.name
            (composeState (composeState (composeState rt message (some ["RECENT_MESSAGES"])
              none).runtime message (some ["RECENT_MESSAGES"]) none).runtime message
              (some ["RECENT_MESSAGES"]) none).state],
        some e) := by
  simp only [processActions, paResponses, h1, List.isEmpty_cons, Bool.false_eq_true, if_false]
  simp only [paNames, composeState_runtime_actions, h2, h3, h4, h5, h6, h7]

/-- Witness for C5 on the concrete runtime: the unresolvable name zzz and
the handler-less NOHAND are recorded as errors and skipped, the failing
FAIL handler aborts the whole call with its error, and the second response
is never processed. -/
theorem processActions_error_handling_witness :
    (processActions exActionRuntime exMessage [exResponse, exResponseLater] none).2.2 =
      some "boom" ∧
    PAEvent.errNoAction "zzz" ∈
      (processActions exActionRuntime exMessage [exResponse, exResponseLater] none).2.1 ∧
    PAEvent.errNoHandler "NOHAND" ∈
      (processActions exActionRuntime exMessage [exResponse, exResponseLater] none).2.1 ∧
    (processActions exActionRuntime exMessage [exResponse, exResponseLater] none).2.1.length =
      3 := by
  have h := processActions_error_handling exActionRuntime exMessage exResponse
    [exResponseLater] none "zzz" "NOHAND" "FAIL" exActionNoHandler exActionFailing
    (fun _ _ _ => Except.error "boom") "boom" rfl rfl rfl rfl rfl rfl (fun _ => rfl)
  rw [h]
  refine ⟨rfl, ?_, ?_, rfl⟩
  · simp
  · simp [exActionNoHandler]

end Eliza
